import Mathlib

/-!
A shallow embedding of the workflow execution core of the `agent-orchestra`
repository — class `WorkflowEngine` in `src/workflows/engine.ts`, with the data
model of `src/types/index.ts` — and proofs of the specification claims about it.

Modelling conventions:

* JavaScript objects live on a heap; a workflow's `steps` array holds object
  references.  We model the heap of step objects as a function
  `StepStore : String → WorkflowStep` indexed by the step's unique `id`, and
  `Workflow.steps` as the list of those ids.  Aliasing (the same step object
  occurring at several array positions after `unshift`) is then exact: reading
  any occurrence goes through the store, and `step.retries--` is a store update.
* The simulated asynchronous invocation inside `executeStep`
  (`engine.ts` lines 392–429: a timeout race around a randomly delayed
  resolution) is the only source of nondeterminism and of step failure.  It is
  abstracted as an oracle parameter `invoke : String → Value → Nat → Except
  String String` giving, for a step id, the input it was called with and the
  number of earlier invocations of that step in this execution, either the
  produced output (abstracted to a `String`) or the rejection message.
  Everything around the oracle is translated from the source.
* `for (const step of arr)` over a JavaScript array uses an index-based
  iterator: each `next()` reads the current element at an internal index and
  increments it, re-reading the (possibly mutated) array and its length every
  time.  `executeSequential` mutates the array (`unshift`) while iterating, so
  the sequential loop is modelled on an explicit index, with fuel for
  termination (`.fuelOut` is a model artifact; the claims supply enough fuel).
* `executions` is a JavaScript `Map`, which iterates in insertion order; it is
  modelled as an insertion-ordered association list.  `Array.prototype.sort` is
  stable (ES2019), modelled by `List.mergeSort`.
* `Date.now()` timestamps and elapsed durations are `Nat` parameters.
* Event emission (`this.emit`) and logging have no effect on the execution
  state and are not modelled.  The `SequentialWorkflow` (etc.) pattern-class
  instances constructed at the top of each `execute*` method are dead stores:
  none of their members is ever used by the engine, so they are not modelled.
-/

namespace AgentOrchestra

/-- A JavaScript value as far as the engine manipulates one: `null`, a string,
the `{skipped: true}` marker returned by a skipped step, or the collaborative
shared-context object `{executionId, messages, state}` (whose `state` field is
the constant `{}` and carries no information).  A message entry is the pair
`{from: step.agent, content: result}`. -/
inductive Value where
  | vnull
  | vstr (s : String)
  | vskipped
  | vshared (executionId : String) (messages : List (Option String × Value))

/-- Interface `WorkflowStep` from `src/types/index.ts` (the fields the engine reads).
`params`/`output` are never consulted by the engine and are omitted.  `input`
is `any` in the source but every engine code path treats it as an optional
string (the `{{...}}` template check), which is how it is modelled. -/
structure WorkflowStep where
  id : String
  name : String
  stepType : String
  agent : Option String
  action : Option String
  input : Option String
  conditions : Option String
  retries : Nat
  timeout : Nat

/-- The heap of step objects, indexed by step id (`engine.ts` generates a
fresh uuid per step, so distinct objects have distinct ids). -/
def StepStore : Type :=
  String → WorkflowStep

/-- Interface `Workflow` from `src/types/index.ts` (the fields the engine reads:
`description`, `metadata`, `created` and the two closures are never read by
the execution paths).  `steps` holds references into the `StepStore`. -/
structure Workflow where
  id : String
  name : String
  pattern : String
  steps : List String

/-- The invocation oracle: what the simulated asynchronous call of
`executeStep` (`engine.ts` 392–429) does for a given step id, input value and
per-step attempt index — resolve with an output or reject with an error. -/
def Invoker : Type :=
  String → Value → Nat → Except String String

/-- Method `WorkflowEngine.evaluateConditions` (`engine.ts` 435–439): returns `true`
unconditionally. -/
def evaluateConditions (conditions : String) (input : Value) : Bool :=
  true

/-- The guard of `executeStep`'s skip branch (`engine.ts` 387):
`step.conditions && !this.evaluateConditions(step.conditions, input)`. -/
def stepSkips (step : WorkflowStep) (input : Value) : Bool :=
  match step.conditions with
  | some c => !(evaluateConditions c input)
  | none => false

/-- Method `WorkflowEngine.executeStep` (`engine.ts` 379–430): skip check, then the
simulated invocation (abstracted as the `invoke` oracle). -/
def executeStep (invoke : Invoker) (step : WorkflowStep) (input : Value)
    (attempt : Nat) : Except String Value :=
  if stepSkips step input then .ok .vskipped
  else (invoke step.id input attempt).map Value.vstr

/-- The invocation log of one `executeStep` call: empty when the step is
skipped, otherwise the one invocation `(step.id, input)`. -/
def stepCalls (step : WorkflowStep) (input : Value) : List (String × Value) :=
  if stepSkips step input then [] else [(step.id, input)]

/-- Number of earlier invocations of step `sid` in the invocation log
(the oracle's per-step attempt index). -/
def attemptIndex (trace : List (String × Value)) (sid : String) : Nat :=
  (trace.map Prod.fst).count sid

/-- The engine configuration fields read by the modelled code paths:
`config.maxConcurrent`, `config.defaultTimeout`,
`config.retryPolicy.maxRetries`. -/
structure EngineConfig where
  maxConcurrent : Nat
  defaultTimeout : Nat
  maxRetries : Nat

/-- JavaScript `x || d` for an optional number (`0` is falsy). -/
def orDefaultNat (v : Option Nat) (d : Nat) : Nat :=
  match v with
  | some n => if n = 0 then d else n
  | none => d

/-- JavaScript `x || d` for an optional string (`""` is falsy). -/
def orDefaultStr (v : Option String) (d : String) : String :=
  match v with
  | some s => if s = "" then d else s
  | none => d

/-- The caller-supplied `config` argument of `workflow.addStep`
(`Partial<WorkflowStep>`; the fields `addStep` reads). -/
structure StepConfig where
  stepType : Option String
  agent : Option String
  action : Option String
  input : Option String
  conditions : Option String
  retries : Option Nat
  timeout : Option Nat

/-- Method `WorkflowEngine.createWorkflow` (`engine.ts` 51–95): builds the workflow
record with an empty `steps` list.  No validation of any kind is performed.
The generated uuid is a parameter. -/
def createWorkflow (workflowId name pattern : String) : Workflow :=
  { id := workflowId, name := name, pattern := pattern, steps := [] }

/-- The `addStep` closure created in `createWorkflow` (`engine.ts` 67–84):
builds a `WorkflowStep` with `||`-defaults from the engine config, pushes its
reference onto `workflow.steps` and allocates it in the store.  The generated
uuid is the `stepId` parameter. -/
def addStep (config : EngineConfig) (wf : Workflow) (store : StepStore)
    (stepId name : String) (c : StepConfig) : Workflow × StepStore :=
  let step : WorkflowStep :=
    { id := stepId
      name := name
      stepType := orDefaultStr c.stepType "action"
      agent := c.agent
      action := c.action
      input := c.input
      conditions := c.conditions
      retries := orDefaultNat c.retries config.maxRetries
      timeout := orDefaultNat c.timeout config.defaultTimeout }
  ({ wf with steps := wf.steps ++ [stepId] },
   fun x => if x = stepId then step else store x)

/-- One entry of an `ExecutionResult.results` array: the engine pushes either
`{step, success: true, output}` or `{step, success: false, error}`. -/
structure StepOutcome where
  step : String
  success : Bool
  output : Option Value
  error : Option String

/-- Interface `ExecutionResult` from `src/types/index.ts`, as the engine builds it:
`workflowId` and `duration` are always set; `results` is absent on the
catch path of `execute`; `metadata` is set only by the collaborative
pattern (the shared-context object). -/
structure ExecutionResult where
  success : Bool
  executionId : String
  workflowId : String
  results : Option (List StepOutcome)
  error : Option String
  duration : Nat
  metadata : Option Value

/-- The mutable state of `executeSequential`'s loop: the (mutated) `steps`
array of the workflow, the step-object heap, the `results` accumulator,
`previousOutput`, and the invocation log. -/
structure SeqState where
  steps : List String
  store : StepStore
  results : List StepOutcome
  previousOutput : Value
  trace : List (String × Value)

inductive SeqResult where
  | done (st : SeqState)
  | thrown (e : String) (st : SeqState)
  | fuelOut (st : SeqState)

/-- Statement `step.retries--` (`engine.ts` 232) on the shared step object. -/
def decRetries (store : StepStore) (sid : String) : StepStore :=
  fun x =>
    if x = sid then { store x with retries := (store x).retries - 1 }
    else store x

/-- Input preparation of the sequential loop (`engine.ts` 200–204): a string
input of the shape `{{...}}` is replaced by the previous step's output. -/
def resolveSequentialInput (step : WorkflowStep) (previousOutput : Value) :
    Value :=
  match step.input with
  | some s =>
      if s.startsWith "\x7b\x7b" && s.endsWith "\x7d\x7d" then previousOutput
      else .vstr s
  | none => .vnull

/-- The `for (const step of workflow.steps)` loop of
`WorkflowEngine.executeSequential` (`engine.ts` 195–239), on an explicit
iterator index.  On success the outcome is pushed and `previousOutput`
updated; on failure with `step.retries > 0` the shared step object's
`retries` is decremented and the step is `unshift`ed onto the array (the
iterator then re-reads the mutated array); on failure with no retries left
the error is thrown out of the loop. -/
def executeSequentialLoop (invoke : Invoker) :
    Nat → Nat → SeqState → SeqResult
  | 0, _, st => .fuelOut st
  | fuel + 1, i, st =>
    match st.steps[i]? with
    | none => .done st
    | some sid =>
      let step := st.store sid
      let input := resolveSequentialInput step st.previousOutput
      match executeStep invoke step input (attemptIndex st.trace sid) with
      | .ok v =>
          executeSequentialLoop invoke fuel (i + 1)
            { st with
              results := st.results ++
                [{ step := step.name, success := true, output := some v,
                   error := none }]
              previousOutput := v
              trace := st.trace ++ stepCalls step input }
      | .error e =>
          if step.retries > 0 then
            executeSequentialLoop invoke fuel (i + 1)
              { st with
                store := decRetries st.store sid
                steps := sid :: st.steps
                trace := st.trace ++ stepCalls step input }
          else
            .thrown e { st with trace := st.trace ++ stepCalls step input }

/-- Method `WorkflowEngine.executeSequential` (`engine.ts` 186–247). -/
def executeSequential (invoke : Invoker) (fuel : Nat) (wf : Workflow)
    (store : StepStore) : SeqResult :=
  executeSequentialLoop invoke fuel 0
    { steps := wf.steps, store := store, results := [],
      previousOutput := .vnull, trace := [] }

/-- The static input a parallel step is dispatched with (`engine.ts` 262:
`this.executeStep(step, step.input, context)`). -/
def staticInput (step : WorkflowStep) : Value :=
  match step.input with
  | some s => .vstr s
  | none => .vnull

structure ParallelOut where
  results : List StepOutcome
  trace : List (String × Value)

/-- Method `WorkflowEngine.executeParallel` (`engine.ts` 252–284): every step is
dispatched (each promise catches its own failure, so siblings always run to
completion), and `Promise.all` collects the outcomes in declaration order.
All steps are dispatched before any completes, so every invocation has
attempt index `0`. -/
def executeParallel (invoke : Invoker) (wf : Workflow) (store : StepStore) :
    ParallelOut :=
  { results := wf.steps.map fun sid =>
      let step := store sid
      match executeStep invoke step (staticInput step) 0 with
      | .ok v =>
          { step := step.name, success := true, output := some v,
            error := none }
      | .error e =>
          { step := step.name, success := false, output := none,
            error := some e }
    trace := wf.steps.flatMap fun sid =>
      stepCalls (store sid) (staticInput (store sid)) }

inductive WorkersRun where
  | done (results : List StepOutcome) (trace : List (String × Value))
  | thrown (e : String) (trace : List (String × Value))

/-- The worker loop of `executeHierarchical` (`engine.ts` 314–321): each
sub-task gets the supervisor's output as input; an error is not caught and
propagates. -/
def runWorkers (invoke : Invoker) (store : StepStore)
    (supervisorResult : Value) :
    List String → List StepOutcome → List (String × Value) → WorkersRun
  | [], results, trace => .done results trace
  | sid :: rest, results, trace =>
    let step := store sid
    match executeStep invoke step supervisorResult
        (attemptIndex trace sid) with
    | .ok v =>
        runWorkers invoke store supervisorResult rest
          (results ++
            [{ step := step.name, success := true, output := some v,
               error := none }])
          (trace ++ stepCalls step supervisorResult)
    | .error e => .thrown e (trace ++ stepCalls step supervisorResult)

inductive HierResult where
  | completed (results : List StepOutcome) (trace : List (String × Value))
  | thrown (e : String) (trace : List (String × Value))

/-- Method `WorkflowEngine.executeHierarchical` (`engine.ts` 289–329): find the
supervisor step (throwing if there is none), run it with `null` input, then
run all non-supervisor steps with its output; any step error propagates. -/
def executeHierarchical (invoke : Invoker) (wf : Workflow)
    (store : StepStore) : HierResult :=
  match wf.steps.find? (fun sid => (store sid).stepType == "supervisor") with
  | none => .thrown "Hierarchical workflow requires a supervisor step" []
  | some supId =>
    let sup := store supId
    match executeStep invoke sup .vnull (attemptIndex [] supId) with
    | .error e => .thrown e (stepCalls sup .vnull)
    | .ok supOut =>
      let workers :=
        wf.steps.filter fun sid => !((store sid).stepType == "supervisor")
      match runWorkers invoke store supOut workers
          [{ step := sup.name, success := true, output := some supOut,
             error := none }]
          (stepCalls sup .vnull) with
      | .done results trace => .completed results trace
      | .thrown e trace => .thrown e trace

inductive CollabResult where
  | done (results : List StepOutcome)
      (messages : List (Option String × Value))
      (trace : List (String × Value))
  | thrown (e : String) (trace : List (String × Value))

/-- The loop of `executeCollaborative` (`engine.ts` 351–365): each step gets
the shared context as input; after each step, `{from: step.agent, content:
result}` is appended to the shared messages; an error propagates. -/
def executeCollaborativeLoop (invoke : Invoker) (executionId : String)
    (store : StepStore) :
    List String → List (Option String × Value) → List StepOutcome →
      List (String × Value) → CollabResult
  | [], messages, results, trace => .done results messages trace
  | sid :: rest, messages, results, trace =>
    let step := store sid
    let input := Value.vshared executionId messages
    match executeStep invoke step input (attemptIndex trace sid) with
    | .ok v =>
        executeCollaborativeLoop invoke executionId store rest
          (messages ++ [(step.agent, v)])
          (results ++
            [{ step := step.name, success := true, output := some v,
               error := none }])
          (trace ++ stepCalls step input)
    | .error e => .thrown e (trace ++ stepCalls step input)

/-- Method `WorkflowEngine.executeCollaborative` (`engine.ts` 334–374). -/
def executeCollaborative (invoke : Invoker) (executionId : String)
    (wf : Workflow) (store : StepStore) : CollabResult :=
  executeCollaborativeLoop invoke executionId store wf.steps [] [] []

/-- What one call of `WorkflowEngine.execute` produces when it returns
normally: the `ExecutionResult`, the invocation log, the workflow's `steps`
array and step heap after the call (sequential execution mutates them), and
the `activeExecutions` counter after the `finally` block. -/
structure ExecOut where
  result : ExecutionResult
  trace : List (String × Value)
  stepsAfter : List String
  storeAfter : StepStore
  activeAfter : Nat

inductive EngineOut where
  | rejected (e : String)
  | finished (out : ExecOut)
  | fuelOut

/-- Method `WorkflowEngine.execute` (`engine.ts` 113–181): the admission check
throws `CapacityExceeded` to the caller before the counter is incremented;
otherwise the counter is incremented, the pattern executor runs inside
`try`, any thrown error is converted into a failed `ExecutionResult` that is
returned (not re-thrown), `duration` is stamped, and the `finally` block
decrements the counter exactly once on every path. -/
def execute (invoke : Invoker) (config : EngineConfig) (active : Nat)
    (wf : Workflow) (store : StepStore) (executionId : String)
    (elapsed : Nat) (fuel : Nat) : EngineOut :=
  if config.maxConcurrent ≤ active then
    .rejected "Maximum concurrent executions reached"
  else
    let activeAfter := (active + 1) - 1
    let failed := fun (e : String) (stepsAfter : List String)
        (storeAfter : StepStore) (trace : List (String × Value)) =>
      EngineOut.finished
        { result :=
            { success := false, executionId := executionId,
              workflowId := wf.id, results := none, error := some e,
              duration := elapsed, metadata := none }
          trace := trace, stepsAfter := stepsAfter,
          storeAfter := storeAfter, activeAfter := activeAfter }
    let completed := fun (success : Bool) (results : List StepOutcome)
        (metadata : Option Value) (stepsAfter : List String)
        (storeAfter : StepStore) (trace : List (String × Value)) =>
      EngineOut.finished
        { result :=
            { success := success, executionId := executionId,
              workflowId := wf.id, results := some results, error := none,
              duration := elapsed, metadata := metadata }
          trace := trace, stepsAfter := stepsAfter,
          storeAfter := storeAfter, activeAfter := activeAfter }
    if wf.pattern = "sequential" then
      match executeSequential invoke fuel wf store with
      | .done st => completed true st.results none st.steps st.store st.trace
      | .thrown e st => failed e st.steps st.store st.trace
      | .fuelOut _ => .fuelOut
    else if wf.pattern = "parallel" then
      let p := executeParallel invoke wf store
      completed (!(p.results.any fun r => !r.success)) p.results none
        wf.steps store p.trace
    else if wf.pattern = "hierarchical" then
      match executeHierarchical invoke wf store with
      | .completed results trace =>
          completed true results none wf.steps store trace
      | .thrown e trace => failed e wf.steps store trace
    else if wf.pattern = "collaborative" then
      match executeCollaborative invoke executionId wf store with
      | .done results messages trace =>
          completed true results (some (.vshared executionId messages))
            wf.steps store trace
      | .thrown e trace => failed e wf.steps store trace
    else
      failed ("Unknown orchestration pattern: " ++ wf.pattern)
        wf.steps store []

/-- The `executions` map of the engine: a JavaScript `Map` iterating in
insertion order; an execution is inserted when it completes, so the list is
in completion order (oldest first). -/
def Ledger : Type :=
  List (String × ExecutionResult)

/-- Method `WorkflowEngine.getHistory` (`engine.ts` 444–450): sort the stored
results with the comparator `(a, b) => (b.duration || 0) - (a.duration ||
0)` — i.e. by `duration`, descending, stably — and take the first `limit`. -/
def getHistory (executions : Ledger) (limit : Nat) : List ExecutionResult :=
  ((executions.map Prod.snd).mergeSort
    fun a b => decide (b.duration ≤ a.duration)).take limit

/-- Modelled from the spec: "`getHistory(limit)` returns the most recent N
results; ordering must be by completion recency, independent of duration."
The ledger is in completion order (most recent last), so this is the
reversed value list truncated to `limit`. -/
def getHistoryByRecency (executions : Ledger) (limit : Nat) :
    List ExecutionResult :=
  (executions.map Prod.snd).reverse.take limit

/-- Method `WorkflowEngine.cleanupOldExecutions` (`engine.ts` 455–469): delete every
entry whose `duration || 0` is smaller than `Date.now() - 3600000`.  (The
claims supply `now ≥ 3600000`, where truncated `Nat` subtraction agrees with
the source's integer subtraction.) -/
def cleanupOldExecutions (now : Nat) (executions : Ledger) : Ledger :=
  let oneHourAgo := now - 3600000
  executions.filter fun p => !(decide (p.snd.duration < oneHourAgo))

/-- Modelled from the spec: "a periodic sweep removing entries older than a
configured retention window (age measured from completion time, not from the
unrelated duration field)".  `ExecutionResult` records no completion
timestamp, so the intended sweep is modelled on a ledger whose entries are
annotated with their completion time (first component). -/
def cleanupByCompletionTime (now retention : Nat)
    (executions : List (Nat × String × ExecutionResult)) :
    List (Nat × String × ExecutionResult) :=
  executions.filter fun p => decide (now - p.fst ≤ retention)

/-- The admission check and increment of `execute` (`engine.ts` 117–122):
at or above the limit the submission is rejected and the counter is
untouched; below it the counter is incremented and the execution admitted. -/
def tryAcquireSlot (maxConcurrent active : Nat) : Nat × Bool :=
  if maxConcurrent ≤ active then (active, false) else (active + 1, true)

/-- The `finally` block of `execute` (`engine.ts` 179):
`this.activeExecutions--`. -/
def releaseSlot (active : Nat) : Nat :=
  active - 1

/-- Events observed by the `activeExecutions` counter: a submission arriving
(admitted or rejected per `tryAcquireSlot`) or an admitted execution
completing (its `finally` block running). -/
inductive SchedEvent where
  | submit
  | finish

/-- The evolution of the `activeExecutions` counter under a sequence of
submission/completion events. -/
def schedulerRun (maxConcurrent : Nat) : List SchedEvent → Nat → Nat
  | [], active => active
  | .submit :: es, active =>
      schedulerRun maxConcurrent es (tryAcquireSlot maxConcurrent active).fst
  | .finish :: es, active =>
      schedulerRun maxConcurrent es (releaseSlot active)

/-! ### Concrete fixtures for witnesses and counterexamples -/

/-- A plain action step with no declared input, conditions, agent or action. -/
def mkPlainStep (x : String) (r : Nat) : WorkflowStep :=
  { id := x, name := x, stepType := "action", agent := none, action := none,
    input := none, conditions := none, retries := r, timeout := 30000 }

def cfgW : EngineConfig :=
  { maxConcurrent := 1, defaultTimeout := 30000, maxRetries := 3 }

def storePlain : StepStore := fun x => mkPlainStep x 0

def invokeOk : Invoker := fun _ _ _ => .ok "v"

def wfPar0 : Workflow :=
  { id := "w3", name := "par", pattern := "parallel", steps := [] }

/-- The `ExecOut` that `execute` produces for `wfPar0` (used by the C3
witness). -/
def outW3 : ExecOut :=
  { result :=
      { success := true, executionId := "e3", workflowId := "w3",
        results := some [], error := none, duration := 5, metadata := none }
    trace := [], stepsAfter := [], storeAfter := storePlain,
    activeAfter := 0 }

def resC7 : ExecutionResult :=
  { success := true, executionId := "e1", workflowId := "w1",
    results := some [], error := none, duration := 500, metadata := none }

def resOld : ExecutionResult :=
  { success := true, executionId := "e1", workflowId := "w",
    results := some [], error := none, duration := 500, metadata := none }

def resNew : ExecutionResult :=
  { success := true, executionId := "e2", workflowId := "w",
    results := some [], error := none, duration := 10, metadata := none }

/-- A ledger holding two completed executions: `e1` completed first (larger
duration), `e2` completed afterwards (smaller duration). -/
def ledgerC2 : Ledger := [("e1", resOld), ("e2", resNew)]

def cfg9 : EngineConfig :=
  { maxConcurrent := 10, defaultTimeout := 30000, maxRetries := 3 }

def stepCfg9 : StepConfig :=
  { stepType := some "action", agent := none, action := none, input := none,
    conditions := none, retries := none, timeout := none }

/-- Registration of a hierarchical workflow whose only step is a plain worker
(no supervisor): `createWorkflow` followed by one `addStep`. -/
def reg9 : Workflow × StepStore :=
  addStep cfg9 (createWorkflow "w9" "hier" "hierarchical") storePlain
    "s1" "worker" stepCfg9

def out9 : ExecOut :=
  { result :=
      { success := false, executionId := "e9", workflowId := "w9",
        results := none,
        error := some "Hierarchical workflow requires a supervisor step",
        duration := 7, metadata := none }
    trace := [], stepsAfter := ["s1"], storeAfter := reg9.2,
    activeAfter := 0 }

def wf5 : Workflow :=
  { id := "w5", name := "h", pattern := "hierarchical",
    steps := ["sup", "wrk"] }

def store5 : StepStore := fun x =>
  if x = "sup" then { mkPlainStep "sup" 0 with stepType := "supervisor" }
  else mkPlainStep x 0

def invoke5 : Invoker := fun s _ _ =>
  if s = "sup" then .error "supfail" else .ok "v"

def wf4 : Workflow :=
  { id := "w4", name := "p", pattern := "parallel", steps := ["p1", "p2"] }

/-- The number of accumulated shared messages inside a value, when the value
is the collaborative shared-context object. -/
def sharedCount : Value → Option Nat
  | .vshared _ messages => some messages.length
  | _ => none

def wf8 : Workflow :=
  { id := "w8", name := "c", pattern := "collaborative",
    steps := ["c1", "c2"] }

def wfC6 : Workflow :=
  { id := "w6", name := "seq", pattern := "sequential", steps := ["s1"] }

/-- A heap whose single interesting step `s1` has one retry left. -/
def storeC6 : StepStore := fun x => mkPlainStep x 1

def invokeFail : Invoker := fun _ _ _ => .error "boom"

/-- The `ExecOut` of executing `wfC6` against `invokeFail`: the step is
invoked twice, the definition's step list has grown to `["s1", "s1"]`, and
the step object's `retries` has been decremented to `0`. -/
def outC6 : ExecOut :=
  ⟨⟨false, "e6", "w6", none, some "boom", 3, none⟩,
   [("s1", Value.vnull), ("s1", Value.vnull)],
   ["s1", "s1"], decRetries storeC6 "s1", 0⟩

def wf6ok : Workflow :=
  { id := "w6b", name := "seq", pattern := "sequential", steps := ["t1"] }

def wfC1 : Workflow :=
  { id := "w1s", name := "seq", pattern := "sequential",
    steps := ["a", "b"] }

/-- Step `b` carries two retries; every other step none. -/
def storeC1 : StepStore := fun x =>
  mkPlainStep x (if x = "b" then 2 else 0)

/-- Step `a` always succeeds; every other step always fails. -/
def invokeC1 : Invoker := fun s _ _ =>
  if s = "a" then .ok "va" else .error "boom"

/-! ### Helper lemmas -/

theorem stepSkips_eq_false (step : WorkflowStep) (input : Value) :
    stepSkips step input = false := by
  unfold stepSkips
  cases step.conditions <;> simp [evaluateConditions]

theorem executeStep_eq_invoke (invoke : Invoker) (step : WorkflowStep)
    (input : Value) (attempt : Nat) :
    executeStep invoke step input attempt =
      (invoke step.id input attempt).map Value.vstr := by
  unfold executeStep
  simp [stepSkips_eq_false]

theorem stepCalls_eq (step : WorkflowStep) (input : Value) :
    stepCalls step input = [(step.id, input)] := by
  unfold stepCalls
  simp [stepSkips_eq_false]

theorem decRetries_id (store : StepStore) (sid x : String) :
    ((decRetries store sid) x).id = (store x).id := by
  unfold decRetries
  split <;> rfl

theorem decRetries_input (store : StepStore) (sid x : String) :
    ((decRetries store sid) x).input = (store x).input := by
  unfold decRetries
  split <;> rfl

theorem decRetries_retries_self (store : StepStore) (sid : String) :
    ((decRetries store sid) sid).retries = (store sid).retries - 1 := by
  unfold decRetries
  simp

theorem resolveSequentialInput_congr {s t : WorkflowStep} (p : Value)
    (h : s.input = t.input) :
    resolveSequentialInput s p = resolveSequentialInput t p := by
  unfold resolveSequentialInput
  rw [h]

theorem flatMap_stepCalls_fst (store : StepStore)
    (hid : ∀ x, (store x).id = x) (arr : List String) :
    (arr.flatMap fun sid =>
      stepCalls (store sid) (staticInput (store sid))).map Prod.fst = arr := by
  have hfun : (fun sid => stepCalls (store sid) (staticInput (store sid))) =
      fun sid => [(sid, staticInput (store sid))] := by
    funext sid
    rw [stepCalls_eq, hid]
  rw [hfun]
  induction arr with
  | nil => rfl
  | cons a as ih => simpa using ih

/-! ### Claims -/

/-- C10: the engine's condition evaluation returns `true` for every condition
and input, so a step's declared conditions never cause it to be skipped: the
`Skipped` branch of `executeStep` is unreachable, and every step reached by a
pattern executor is actually invoked (its `executeStep` call reduces to the
invocation itself), regardless of the `conditions` field. -/
theorem conditions_never_skip :
    (∀ c input, evaluateConditions c input = true) ∧
    (∀ step input, stepSkips step input = false) ∧
    (∀ invoke step input attempt,
      executeStep invoke step input attempt =
        (invoke step.id input attempt).map Value.vstr) ∧
    (∀ step input, stepCalls step input = [(step.id, input)]) :=
  ⟨fun _ _ => rfl, fun s i => stepSkips_eq_false s i,
   fun f s i a => executeStep_eq_invoke f s i a,
   fun s i => stepCalls_eq s i⟩

/-- C7 (code bug): the cleanup sweep compares the `duration` field — a few
milliseconds — against the wall-clock cutoff `Date.now() - 3600000`, so it
removes an entry that completed at this very moment (age `0`, well inside the
retention window) merely because its duration (`500` ms) is smaller than the
cutoff; the spec-modelled sweep by completion time keeps it.  Concretely, at
`now = 7200000` the code deletes the just-completed entry while the intended
sweep retains it. -/
theorem cleanup_removes_fresh_entry :
    cleanupOldExecutions 7200000 [("e1", resC7)] = [] ∧
    cleanupByCompletionTime 7200000 3600000 [(7200000, "e1", resC7)] =
      [(7200000, "e1", resC7)] := by
  constructor <;> rfl

/-- C2 (counterexample): `getHistory` orders by the `duration` field, not by
completion recency.  In `ledgerC2`, `e2` completed after `e1`, yet
`getHistory` returns `e1` (duration 500) before `e2` (duration 10); the
most-recent-first order is `[e2, e1]`. -/
theorem getHistory_ignores_recency_cex :
    (getHistory ledgerC2 2).map (fun r => r.executionId) = ["e1", "e2"] ∧
    (getHistoryByRecency ledgerC2 2).map (fun r => r.executionId) =
      ["e2", "e1"] ∧
    getHistory ledgerC2 2 ≠ getHistoryByRecency ledgerC2 2 := by
  have h1 : (getHistory ledgerC2 2).map (fun r => r.executionId) =
      ["e1", "e2"] := by
    simp [getHistory, ledgerC2, resOld, resNew, List.mergeSort, List.merge]
  have h2 : (getHistoryByRecency ledgerC2 2).map (fun r => r.executionId) =
      ["e2", "e1"] := by
    simp [getHistoryByRecency, ledgerC2, resOld, resNew]
  refine ⟨h1, h2, fun h => ?_⟩
  rw [h, h2] at h1
  exact absurd h1 (by decide)

/-- C2 (amended): `getHistory(limit)` returns up to `limit` stored results
sorted stably by `duration`, descending — not by completion recency: the
returned list is pairwise ordered by `duration`, has length
`min limit size`, and draws its elements from the ledger's values. -/
theorem getHistory_sorted_by_duration (executions : Ledger) (limit : Nat) :
    (getHistory executions limit).Pairwise
      (fun a b => b.duration ≤ a.duration) ∧
    (getHistory executions limit).length = min limit executions.length ∧
    getHistory executions limit ⊆ executions.map Prod.snd := by
  refine ⟨?_, ?_, ?_⟩
  · have hs := @List.sorted_mergeSort ExecutionResult
      (fun a b => decide (b.duration ≤ a.duration))
      (fun a b c hab hbc => by
        simp only [decide_eq_true_eq] at hab hbc ⊢
        omega)
      (fun a b => by
        rcases Nat.le_total b.duration a.duration with h | h <;>
          simp [h])
      (executions.map Prod.snd)
    have hp := List.Pairwise.sublist (List.take_sublist limit _) hs
    exact hp.imp fun h => by simpa using h
  · simp [getHistory, List.length_take, List.length_mergeSort]
  · intro r hr
    have h1 := List.take_subset limit _ hr
    exact (List.mergeSort_perm _ _).subset h1

/-- C3: the `activeExecutions` counter never exceeds `maxConcurrent` along
any sequence of submissions and completions; a submission arriving at the
limit is rejected immediately — `execute` throws `Maximum concurrent
executions reached` to the caller without touching the counter and without
queueing — and every admitted execution's `finally` block releases its slot
exactly once, leaving the counter where it started, whether the execution
succeeded or failed. -/
theorem admission_limit_and_release (maxConcurrent : Nat) :
    (∀ events active, active ≤ maxConcurrent →
      schedulerRun maxConcurrent events active ≤ maxConcurrent) ∧
    (∀ active, maxConcurrent ≤ active →
      tryAcquireSlot maxConcurrent active = (active, false)) ∧
    (∀ invoke config active wf store executionId elapsed fuel,
      config.maxConcurrent ≤ active →
      execute invoke config active wf store executionId elapsed fuel =
        .rejected "Maximum concurrent executions reached") ∧
    (∀ invoke config active wf store executionId elapsed fuel out,
      execute invoke config active wf store executionId elapsed fuel =
        .finished out →
      out.activeAfter = active) := by
  refine ⟨?_, ?_, ?_, ?_⟩
  · intro events
    induction events with
    | nil => intro active h; simpa [schedulerRun] using h
    | cons e es ih =>
      intro active h
      cases e with
      | submit =>
        simp only [schedulerRun]
        apply ih
        unfold tryAcquireSlot
        split <;> simp <;> omega
      | finish =>
        simp only [schedulerRun]
        apply ih
        unfold releaseSlot
        omega
  · intro active h
    unfold tryAcquireSlot
    simp [h]
  · intro invoke config active wf store executionId elapsed fuel h
    unfold execute
    rw [if_pos h]
  · intro invoke config active wf store executionId elapsed fuel out h
    by_cases hc : config.maxConcurrent ≤ active
    · unfold execute at h
      rw [if_pos hc] at h
      cases h
    · unfold execute at h
      rw [if_neg hc] at h
      simp only at h
      repeat' split at h
      all_goals
        first
        | (injection h with h
           rw [← h]
           simp)
        | simp at h

/-- Witness for C3 at concrete inputs: a limit of `1`, a trace with an excess
submission, a rejected call at the limit, and an admitted empty parallel
execution whose counter returns to `0`. -/
theorem admission_limit_and_release_witness :
    schedulerRun 1 [SchedEvent.submit, SchedEvent.submit, SchedEvent.finish]
      0 ≤ 1 ∧
    tryAcquireSlot 1 1 = (1, false) ∧
    execute invokeOk cfgW 1 wfPar0 storePlain "e3" 5 0 =
      .rejected "Maximum concurrent executions reached" ∧
    outW3.activeAfter = 0 :=
  ⟨(admission_limit_and_release 1).1 _ 0 (by decide),
   (admission_limit_and_release 1).2.1 1 (by decide),
   (admission_limit_and_release 1).2.2.1 invokeOk cfgW 1 wfPar0 storePlain
     "e3" 5 0 (by decide),
   (admission_limit_and_release 1).2.2.2 invokeOk cfgW 0 wfPar0 storePlain
     "e3" 5 0 outW3 rfl⟩

/-- C9 (counterexample): a hierarchical workflow with no supervisor step is
not rejected at registration — `createWorkflow`/`addStep` perform no
validation and hand back the malformed workflow — and the structural error
only surfaces when the workflow is executed, where it is converted into a
failed `ExecutionResult` returned from `execute` instead of being raised to
the caller.  (Before the conversion, no step has been invoked: the trace is
empty.) -/
theorem missing_supervisor_deferred_cex :
    reg9.1.steps = ["s1"] ∧
    (reg9.2 "s1").stepType = "action" ∧
    execute invokeOk cfg9 0 reg9.1 reg9.2 "e9" 7 0 = .finished out9 ∧
    out9.result.success = false ∧
    out9.result.error =
      some "Hierarchical workflow requires a supervisor step" ∧
    out9.trace = [] := by
  exact ⟨rfl, rfl, rfl, rfl, rfl, rfl⟩

/-- C9 (amended): a hierarchical workflow with no step of kind `supervisor`
is accepted at registration; the malformation is detected at execution time,
before any step is invoked (empty invocation log), and is reported as a
failed `ExecutionResult` returned from `execute` — never thrown to the
caller, never retried, and the workflow state is left untouched. -/
theorem missing_supervisor_detected_at_execution
    (invoke : Invoker) (config : EngineConfig) (active : Nat) (wf : Workflow)
    (store : StepStore) (executionId : String) (elapsed fuel : Nat)
    (hpat : wf.pattern = "hierarchical")
    (hcap : active < config.maxConcurrent)
    (hnosup : ∀ sid ∈ wf.steps, (store sid).stepType ≠ "supervisor") :
    ∃ out, execute invoke config active wf store executionId elapsed fuel =
        .finished out ∧
      out.result.success = false ∧
      out.result.error =
        some "Hierarchical workflow requires a supervisor step" ∧
      out.trace = [] ∧
      out.stepsAfter = wf.steps ∧
      out.storeAfter = store := by
  have hfind : wf.steps.find?
      (fun sid => (store sid).stepType == "supervisor") = none := by
    rw [List.find?_eq_none]
    intro sid hsid
    simpa using hnosup sid hsid
  have hrun : executeHierarchical invoke wf store =
      .thrown "Hierarchical workflow requires a supervisor step" [] := by
    unfold executeHierarchical
    rw [hfind]
  refine ⟨⟨⟨false, executionId, wf.id, none,
      some "Hierarchical workflow requires a supervisor step",
      elapsed, none⟩,
      [], wf.steps, store, active + 1 - 1⟩, ?_, rfl, rfl, rfl, rfl, rfl⟩
  unfold execute
  rw [if_neg (Nat.not_le.mpr hcap)]
  simp only
  rw [hpat]
  rw [if_neg (by decide : ¬(("hierarchical" : String) = "sequential"))]
  rw [if_neg (by decide : ¬(("hierarchical" : String) = "parallel"))]
  rw [if_pos (rfl : ("hierarchical" : String) = "hierarchical")]
  rw [hrun]

/-- Witness for C9 (amended) at the concrete registered workflow `reg9`. -/
theorem missing_supervisor_detected_at_execution_witness :
    ∃ out, execute invokeOk cfg9 0 reg9.1 reg9.2 "e9" 7 0 =
        .finished out ∧
      out.result.success = false ∧
      out.result.error =
        some "Hierarchical workflow requires a supervisor step" ∧
      out.trace = [] ∧
      out.stepsAfter = reg9.1.steps ∧
      out.storeAfter = reg9.2 :=
  missing_supervisor_detected_at_execution invokeOk cfg9 0 reg9.1 reg9.2
    "e9" 7 0 rfl (by decide)
    (by
      intro sid hsid
      have : sid = "s1" := by simpa [reg9, addStep, createWorkflow] using hsid
      subst this
      decide)

/-- C5: for a hierarchical workflow whose supervisor step always fails, the
execution aborts with the supervisor's error before any worker step is
invoked — the invocation log is exactly the one supervisor invocation — and
the failure is recorded as a failed `ExecutionResult` returned from
`execute`, not thrown to the caller. -/
theorem supervisor_failure_aborts_before_workers
    (invoke : Invoker) (config : EngineConfig) (active : Nat) (wf : Workflow)
    (store : StepStore) (executionId : String) (elapsed fuel : Nat)
    (supId e : String)
    (hpat : wf.pattern = "hierarchical")
    (hcap : active < config.maxConcurrent)
    (hsup : wf.steps.find?
      (fun sid => (store sid).stepType == "supervisor") = some supId)
    (hid : (store supId).id = supId)
    (hfail : ∀ inp a, invoke supId inp a = .error e) :
    ∃ out, execute invoke config active wf store executionId elapsed fuel =
        .finished out ∧
      out.result.success = false ∧
      out.result.error = some e ∧
      out.result.results = none ∧
      out.trace = [(supId, Value.vnull)] := by
  have hrun : executeHierarchical invoke wf store =
      .thrown e [(supId, Value.vnull)] := by
    unfold executeHierarchical
    rw [hsup]
    simp only
    rw [executeStep_eq_invoke, hid, hfail]
    simp only [Except.map]
    rw [stepCalls_eq, hid]
  refine ⟨⟨⟨false, executionId, wf.id, none, some e, elapsed, none⟩,
      [(supId, Value.vnull)], wf.steps, store, active + 1 - 1⟩,
    ?_, rfl, rfl, rfl, rfl⟩
  unfold execute
  rw [if_neg (Nat.not_le.mpr hcap)]
  simp only
  rw [hpat]
  rw [if_neg (by decide : ¬(("hierarchical" : String) = "sequential"))]
  rw [if_neg (by decide : ¬(("hierarchical" : String) = "parallel"))]
  rw [if_pos (rfl : ("hierarchical" : String) = "hierarchical")]
  rw [hrun]

/-- Witness for C5 at a concrete hierarchical workflow whose supervisor
always fails. -/
theorem supervisor_failure_aborts_before_workers_witness :
    ∃ out, execute invoke5 cfgW 0 wf5 store5 "e5" 4 0 = .finished out ∧
      out.result.success = false ∧
      out.result.error = some "supfail" ∧
      out.result.results = none ∧
      out.trace = [("sup", Value.vnull)] :=
  supervisor_failure_aborts_before_workers invoke5 cfgW 0 wf5 store5
    "e5" 4 0 "sup" "supfail" rfl (by decide) rfl rfl (fun inp a => rfl)

/-- C4: for every parallel workflow, each step is invoked exactly once, in
declaration order (the invocation log equals the step list); the
`ExecutionResult.success` flag is true iff every `StepOutcome.success` is
true; a failing step never prevents its siblings from being dispatched, and
the result carries one outcome per step, listed in declaration order. -/
theorem parallel_once_and_success_iff
    (invoke : Invoker) (config : EngineConfig) (active : Nat) (wf : Workflow)
    (store : StepStore) (executionId : String) (elapsed fuel : Nat)
    (hpat : wf.pattern = "parallel")
    (hcap : active < config.maxConcurrent)
    (hid : ∀ x, (store x).id = x) :
    ∃ out ress,
      execute invoke config active wf store executionId elapsed fuel =
        .finished out ∧
      out.trace.map Prod.fst = wf.steps ∧
      out.result.results = some ress ∧
      out.result.success = ress.all (fun r => r.success) ∧
      ress.map (fun r => r.step) =
        wf.steps.map (fun sid => (store sid).name) ∧
      ress.length = wf.steps.length := by
  refine ⟨⟨⟨!((executeParallel invoke wf store).results.any fun r =>
        !r.success),
      executionId, wf.id, some (executeParallel invoke wf store).results,
      none, elapsed, none⟩,
      (executeParallel invoke wf store).trace, wf.steps, store,
      active + 1 - 1⟩,
    (executeParallel invoke wf store).results, ?_, ?_, rfl, ?_, ?_, ?_⟩
  · unfold execute
    rw [if_neg (Nat.not_le.mpr hcap)]
    simp only
    rw [hpat]
    rw [if_neg (by decide : ¬(("parallel" : String) = "sequential"))]
    rw [if_pos (rfl : ("parallel" : String) = "parallel")]
  · exact flatMap_stepCalls_fst store hid wf.steps
  · exact ((executeParallel invoke wf store).results.all_eq_not_any_not
      (fun r => r.success)).symm
  · show ((wf.steps.map fun sid =>
        match executeStep invoke (store sid) (staticInput (store sid)) 0 with
        | .ok v =>
            ({ step := (store sid).name, success := true, output := some v,
               error := none } : StepOutcome)
        | .error e =>
            { step := (store sid).name, success := false, output := none,
              error := some e }).map fun r => r.step) =
      wf.steps.map fun sid => (store sid).name
    rw [List.map_map]
    apply List.map_congr_left
    intro sid _
    cases hE : executeStep invoke (store sid) (staticInput (store sid)) 0 <;>
      simp [Function.comp, hE]
  · show (wf.steps.map _).length = wf.steps.length
    exact List.length_map _ _

/-- Witness for C4 at a concrete two-step parallel workflow. -/
theorem parallel_once_and_success_iff_witness :
    ∃ out ress,
      execute invokeOk cfgW 0 wf4 storePlain "e4" 2 0 = .finished out ∧
      out.trace.map Prod.fst = wf4.steps ∧
      out.result.results = some ress ∧
      out.result.success = ress.all (fun r => r.success) ∧
      ress.map (fun r => r.step) =
        wf4.steps.map (fun sid => (storePlain sid).name) ∧
      ress.length = wf4.steps.length :=
  parallel_once_and_success_iff invokeOk cfgW 0 wf4 storePlain "e4" 2 0
    rfl (by decide) (fun x => rfl)

/-- When every invocation succeeds, the collaborative loop completes; it
appends one shared message per step (tagged with the step's agent), invokes
the steps in declaration order, and hands step number `k` a shared context
holding exactly `start + k` accumulated messages. -/
theorem collabLoop_all_ok (invoke : Invoker) (executionId : String)
    (store : StepStore) (hid : ∀ x, (store x).id = x)
    (hok : ∀ sid inp a, ∃ o, invoke sid inp a = .ok o) :
    ∀ (rest : List String) (messages : List (Option String × Value))
      (results : List StepOutcome) (trace : List (String × Value)),
      ∃ results' msgsNew suffix,
        executeCollaborativeLoop invoke executionId store rest messages
          results trace =
          .done results' (messages ++ msgsNew) (trace ++ suffix) ∧
        msgsNew.map Prod.fst = rest.map (fun sid => (store sid).agent) ∧
        msgsNew.length = rest.length ∧
        suffix.map Prod.fst = rest ∧
        suffix.map (fun p => sharedCount p.snd) =
          (List.range' messages.length rest.length).map some := by
  intro rest
  induction rest with
  | nil =>
    intro messages results trace
    exact ⟨results, [], [], by simp [executeCollaborativeLoop], rfl, rfl,
      rfl, by simp⟩
  | cons sid rest ih =>
    intro messages results trace
    obtain ⟨o, ho⟩ :=
      hok sid (Value.vshared executionId messages) (attemptIndex trace sid)
    have hstep : executeStep invoke (store sid)
        (Value.vshared executionId messages) (attemptIndex trace sid) =
        .ok (.vstr o) := by
      rw [executeStep_eq_invoke, hid, ho]
      rfl
    obtain ⟨results', msgsNew, suffix, hrun, h1, h2, h3, h4⟩ :=
      ih (messages ++ [((store sid).agent, Value.vstr o)])
        (results ++
          [{ step := (store sid).name, success := true,
             output := some (Value.vstr o), error := none }])
        (trace ++ stepCalls (store sid) (Value.vshared executionId messages))
    refine ⟨results', ((store sid).agent, Value.vstr o) :: msgsNew,
      (sid, Value.vshared executionId messages) :: suffix, ?_, ?_, ?_, ?_, ?_⟩
    · simp only [executeCollaborativeLoop]
      rw [hstep]
      simp only
      rw [hrun]
      rw [stepCalls_eq, hid]
      simp [List.append_assoc]
    · simp [h1]
    · simp [h2]
    · simp [h3]
    · simp only [List.map_cons, List.length_cons, List.range'_succ]
      rw [h4]
      simp [sharedCount, List.length_append]

/-- C8: for a collaborative workflow of `N` steps in which every invocation
succeeds, the execution completes successfully; the shared-context snapshot
carried in the final `ExecutionResult.metadata` holds exactly `N` accumulated
messages — one appended per step, tagged with that step's agent, in order —
and the steps are invoked strictly in declaration order, step `k` receiving a
shared context that has accumulated exactly `k` messages (the outputs of all
prior steps). -/
theorem collaborative_shared_state_accumulation
    (invoke : Invoker) (config : EngineConfig) (active : Nat) (wf : Workflow)
    (store : StepStore) (executionId : String) (elapsed fuel : Nat)
    (hpat : wf.pattern = "collaborative")
    (hcap : active < config.maxConcurrent)
    (hid : ∀ x, (store x).id = x)
    (hok : ∀ sid inp a, ∃ o, invoke sid inp a = .ok o) :
    ∃ out msgs,
      execute invoke config active wf store executionId elapsed fuel =
        .finished out ∧
      out.result.success = true ∧
      out.result.metadata = some (.vshared executionId msgs) ∧
      msgs.length = wf.steps.length ∧
      msgs.map Prod.fst = wf.steps.map (fun sid => (store sid).agent) ∧
      out.trace.map Prod.fst = wf.steps ∧
      out.trace.map (fun p => sharedCount p.snd) =
        (List.range wf.steps.length).map some := by
  obtain ⟨results', msgsNew, suffix, hrun, h1, h2, h3, h4⟩ :=
    collabLoop_all_ok invoke executionId store hid hok wf.steps [] [] []
  have hcb : executeCollaborative invoke executionId wf store =
      .done results' msgsNew suffix := by
    unfold executeCollaborative
    simpa using hrun
  refine ⟨⟨⟨true, executionId, wf.id, some results', none, elapsed,
      some (.vshared executionId msgsNew)⟩,
      suffix, wf.steps, store, active + 1 - 1⟩, msgsNew,
    ?_, rfl, rfl, h2, h1, h3, ?_⟩
  · unfold execute
    rw [if_neg (Nat.not_le.mpr hcap)]
    simp only
    rw [hpat]
    rw [if_neg (by decide : ¬(("collaborative" : String) = "sequential"))]
    rw [if_neg (by decide : ¬(("collaborative" : String) = "parallel"))]
    rw [if_neg (by decide : ¬(("collaborative" : String) = "hierarchical"))]
    rw [if_pos (rfl : ("collaborative" : String) = "collaborative")]
    rw [hcb]
  · rw [List.range_eq_range']
    simpa using h4

/-- Witness for C8 at a concrete two-step collaborative workflow in which
every invocation succeeds. -/
theorem collaborative_shared_state_accumulation_witness :
    ∃ out msgs,
      execute invokeOk cfgW 0 wf8 storePlain "e8" 6 0 = .finished out ∧
      out.result.success = true ∧
      out.result.metadata = some (.vshared "e8" msgs) ∧
      msgs.length = wf8.steps.length ∧
      msgs.map Prod.fst = wf8.steps.map (fun sid => (storePlain sid).agent) ∧
      out.trace.map Prod.fst = wf8.steps ∧
      out.trace.map (fun p => sharedCount p.snd) =
        (List.range wf8.steps.length).map some :=
  collaborative_shared_state_accumulation invokeOk cfgW 0 wf8 storePlain
    "e8" 6 0 rfl (by decide) (fun x => rfl) (fun sid inp a => ⟨"v", rfl⟩)

/-- C6 (counterexample): executing a sequential workflow with a failing,
retried step mutates the `WorkflowDefinition`: after the execution the
workflow's step list has grown from `["s1"]` to `["s1", "s1"]` (the retry
`unshift`) and the step object's `retries` field has been decremented from
`1` to `0`. -/
theorem sequential_retry_mutates_definition_cex :
    execute invokeFail cfgW 0 wfC6 storeC6 "e6" 3 5 = .finished outC6 ∧
    wfC6.steps = ["s1"] ∧
    outC6.stepsAfter = ["s1", "s1"] ∧
    outC6.stepsAfter ≠ wfC6.steps ∧
    (storeC6 "s1").retries = 1 ∧
    (outC6.storeAfter "s1").retries = 0 := by
  refine ⟨rfl, rfl, rfl, by decide, rfl, rfl⟩

/-- When every invocation succeeds, the sequential loop runs each remaining
step once and completes without touching the step array or the step heap. -/
theorem seqLoop_all_ok (invoke : Invoker)
    (hok : ∀ sid inp a, ∃ o, invoke sid inp a = .ok o) :
    ∀ (fuel : Nat) (i : Nat) (st : SeqState),
      st.steps.length < fuel + i →
      i ≤ st.steps.length →
      ∃ st', executeSequentialLoop invoke fuel i st = .done st' ∧
        st'.steps = st.steps ∧ st'.store = st.store := by
  intro fuel
  induction fuel with
  | zero =>
    intro i st h1 h2
    omega
  | succ f ih =>
    intro i st h1 h2
    cases hsid : st.steps[i]? with
    | none =>
      exact ⟨st, by simp [executeSequentialLoop, hsid], rfl, rfl⟩
    | some sid =>
      have hget : i < st.steps.length := by
        by_contra hc
        push_neg at hc
        rw [List.getElem?_eq_none hc] at hsid
        cases hsid
      obtain ⟨o, ho⟩ := hok (st.store sid).id
        (resolveSequentialInput (st.store sid) st.previousOutput)
        (attemptIndex st.trace sid)
      have hstep : executeStep invoke (st.store sid)
          (resolveSequentialInput (st.store sid) st.previousOutput)
          (attemptIndex st.trace sid) = .ok (.vstr o) := by
        rw [executeStep_eq_invoke, ho]
        rfl
      obtain ⟨st', hrun, hsteps, hstore⟩ := ih (i + 1)
        { st with
          results := st.results ++
            [{ step := (st.store sid).name, success := true,
               output := some (.vstr o), error := none }]
          previousOutput := .vstr o
          trace := st.trace ++ stepCalls (st.store sid)
            (resolveSequentialInput (st.store sid) st.previousOutput) }
        (by show st.steps.length < f + (i + 1); omega)
        (by show i + 1 ≤ st.steps.length; omega)
      refine ⟨st', ?_, hsteps, hstore⟩
      simp only [executeSequentialLoop]
      rw [hsid]
      simp only
      rw [hstep]
      exact hrun

/-- C6 (amended): a sequential execution in which no step fails leaves the
`WorkflowDefinition` unchanged — the step list and every step object
(including each `retries` value) are exactly as before the execution;
however, an execution with a failing, retried step mutates the definition
(see the counterexample: the failing step is `unshift`ed onto the step list
and its `retries` field is decremented in place). -/
theorem execute_no_failure_preserves_definition
    (invoke : Invoker) (config : EngineConfig) (active : Nat) (wf : Workflow)
    (store : StepStore) (executionId : String) (elapsed fuel : Nat)
    (hpat : wf.pattern = "sequential")
    (hcap : active < config.maxConcurrent)
    (hok : ∀ sid inp a, ∃ o, invoke sid inp a = .ok o)
    (hfuel : wf.steps.length < fuel) :
    ∃ out, execute invoke config active wf store executionId elapsed fuel =
        .finished out ∧
      out.result.success = true ∧
      out.stepsAfter = wf.steps ∧
      out.storeAfter = store := by
  obtain ⟨st', hrun, hsteps, hstore⟩ := seqLoop_all_ok invoke hok fuel 0
    { steps := wf.steps, store := store, results := [],
      previousOutput := .vnull, trace := [] }
    (by show wf.steps.length < fuel + 0; omega)
    (Nat.zero_le _)
  have hseq : executeSequential invoke fuel wf store = .done st' := hrun
  refine ⟨⟨⟨true, executionId, wf.id, some st'.results, none, elapsed, none⟩,
    st'.trace, st'.steps, st'.store, active + 1 - 1⟩, ?_, rfl, hsteps, hstore⟩
  unfold execute
  rw [if_neg (Nat.not_le.mpr hcap)]
  simp only
  rw [hpat]
  rw [if_pos (rfl : ("sequential" : String) = "sequential")]
  rw [hseq]

/-- Witness for C6 (amended) at a concrete one-step sequential workflow in
which every invocation succeeds. -/
theorem execute_no_failure_preserves_definition_witness :
    ∃ out, execute invokeOk cfgW 0 wf6ok storePlain "e6b" 2 3 =
        .finished out ∧
      out.result.success = true ∧
      out.stepsAfter = wf6ok.steps ∧
      out.storeAfter = storePlain :=
  execute_no_failure_preserves_definition invokeOk cfgW 0 wf6ok storePlain
    "e6b" 2 3 rfl (by decide) (fun sid inp a => ⟨"v", rfl⟩) (by decide)

/-- The retry loop of a step whose invocations always fail: from a state
whose array is the original array with `t` retry copies of the failing step
`unshift`ed onto the front and whose iterator has just reached that step,
the loop re-invokes the step once per remaining retry (the `unshift`ed copy
is what the incremented iterator index re-reads) and then throws the step's
error; the invocation log gains exactly `retries + 1` entries, all for the
failing step, all with the same resolved input. -/
theorem seqLoop_always_fail (invoke : Invoker) (sid e : String)
    (hfail : ∀ inp a, invoke sid inp a = .error e) :
    ∀ (r : Nat) (fuel t j : Nat) (arr0 : List String) (store : StepStore)
      (results : List StepOutcome) (prevOut : Value)
      (trace : List (String × Value)),
      (store sid).id = sid →
      (store sid).retries = r →
      arr0[j]? = some sid →
      r + 1 ≤ fuel →
      ∃ st', executeSequentialLoop invoke fuel (j + t)
          { steps := List.replicate t sid ++ arr0, store := store,
            results := results, previousOutput := prevOut,
            trace := trace } =
          .thrown e st' ∧
        st'.trace = trace ++ List.replicate (r + 1)
          (sid, resolveSequentialInput (store sid) prevOut) := by
  intro r
  induction r with
  | zero =>
    intro fuel t j arr0 store results prevOut trace hid hr hj hfuel
    obtain ⟨f, rfl⟩ : ∃ f, fuel = f + 1 := ⟨fuel - 1, by omega⟩
    have hidx : (List.replicate t sid ++ arr0)[j + t]? = some sid := by
      rw [List.getElem?_append_right (by simp)]
      simpa using hj
    have hstep : executeStep invoke (store sid)
        (resolveSequentialInput (store sid) prevOut)
        (attemptIndex trace sid) = .error e := by
      rw [executeStep_eq_invoke, hid, hfail]
      rfl
    refine ⟨⟨List.replicate t sid ++ arr0, store, results, prevOut,
      trace ++ [(sid, resolveSequentialInput (store sid) prevOut)]⟩, ?_, ?_⟩
    · simp only [executeSequentialLoop]
      rw [hidx]
      simp only
      rw [hstep]
      simp only
      rw [hr]
      rw [if_neg (by decide : ¬((0 : Nat) > 0))]
      rw [stepCalls_eq, hid]
    · simp
  | succ n ihn =>
    intro fuel t j arr0 store results prevOut trace hid hr hj hfuel
    obtain ⟨f, rfl⟩ : ∃ f, fuel = f + 1 := ⟨fuel - 1, by omega⟩
    have hidx : (List.replicate t sid ++ arr0)[j + t]? = some sid := by
      rw [List.getElem?_append_right (by simp)]
      simpa using hj
    have hstep : executeStep invoke (store sid)
        (resolveSequentialInput (store sid) prevOut)
        (attemptIndex trace sid) = .error e := by
      rw [executeStep_eq_invoke, hid, hfail]
      rfl
    have hid' : ((decRetries store sid) sid).id = sid := by
      rw [decRetries_id, hid]
    have hr' : ((decRetries store sid) sid).retries = n := by
      rw [decRetries_retries_self, hr]
      omega
    have hinp : resolveSequentialInput ((decRetries store sid) sid) prevOut =
        resolveSequentialInput (store sid) prevOut :=
      resolveSequentialInput_congr prevOut (decRetries_input store sid sid)
    obtain ⟨st', hrun, htr⟩ := ihn f (t + 1) j arr0 (decRetries store sid)
      results prevOut
      (trace ++ [(sid, resolveSequentialInput (store sid) prevOut)])
      hid' hr' hj (by omega)
    refine ⟨st', ?_, ?_⟩
    · simp only [executeSequentialLoop]
      rw [hidx]
      simp only
      rw [hstep]
      simp only
      rw [hr]
      rw [if_pos (Nat.succ_pos n)]
      rw [stepCalls_eq, hid]
      exact hrun
    · rw [htr, hinp]
      simp [List.append_assoc, List.replicate_succ]

/-- Running the sequential loop from index `i`, where the `d` steps at
indices `i, …, i+d-1 = j-1` always succeed and the step at index `j` always
fails: the prefix steps are invoked once each, in order, the failing step
`retries + 1` times, and the loop throws the failing step's error.  The
array and heap are untouched while the prefix runs, so the failing step's
`retries` value is still the declared one when the retry loop starts. -/
theorem seqLoop_prefix_fail (invoke : Invoker) (arr0 : List String)
    (j : Nat) (sid e : String)
    (hj : arr0[j]? = some sid)
    (hfail : ∀ inp a, invoke sid inp a = .error e)
    (hok : ∀ i, i < j → ∀ sid', arr0[i]? = some sid' →
      ∀ inp a, ∃ o, invoke sid' inp a = .ok o) :
    ∀ (d i : Nat) (store : StepStore) (results : List StepOutcome)
      (prevOut : Value) (trace : List (String × Value)) (fuel : Nat),
      i + d = j →
      (∀ x, (store x).id = x) →
      d + (store sid).retries + 1 ≤ fuel →
      ∃ st', executeSequentialLoop invoke fuel i
          { steps := arr0, store := store, results := results,
            previousOutput := prevOut, trace := trace } = .thrown e st' ∧
        st'.trace.map Prod.fst = trace.map Prod.fst ++
          ((arr0.drop i).take d ++
            List.replicate ((store sid).retries + 1) sid) := by
  intro d
  induction d with
  | zero =>
    intro i store results prevOut trace fuel hij hid hfuel
    have hi : i = j := by omega
    subst hi
    obtain ⟨st', hrun, htr⟩ := seqLoop_always_fail invoke sid e hfail
      (store sid).retries fuel 0 i arr0 store results prevOut trace
      (hid sid) rfl hj (by omega)
    refine ⟨st', ?_, ?_⟩
    · simpa using hrun
    · rw [htr]
      simp
  | succ n ihn =>
    intro i store results prevOut trace fuel hij hid hfuel
    have hi : i < j := by omega
    have hjlen : j < arr0.length := by
      by_contra hc
      push_neg at hc
      rw [List.getElem?_eq_none hc] at hj
      cases hj
    have hilen : i < arr0.length := by omega
    cases hgi : arr0[i]? with
    | none =>
      rw [List.getElem?_eq_getElem hilen] at hgi
      cases hgi
    | some sidI =>
      have hgetI : arr0[i] = sidI := by
        have hx := List.getElem?_eq_getElem hilen
        rw [hgi] at hx
        exact (Option.some.inj hx).symm
      obtain ⟨o, ho⟩ := hok i hi sidI hgi
        (resolveSequentialInput (store sidI) prevOut)
        (attemptIndex trace sidI)
      have hstep : executeStep invoke (store sidI)
          (resolveSequentialInput (store sidI) prevOut)
          (attemptIndex trace sidI) = .ok (.vstr o) := by
        rw [executeStep_eq_invoke, hid, ho]
        rfl
      obtain ⟨f, rfl⟩ : ∃ f, fuel = f + 1 := ⟨fuel - 1, by omega⟩
      obtain ⟨st', hrun, htr⟩ := ihn (i + 1) store
        (results ++
          [{ step := (store sidI).name, success := true,
             output := some (.vstr o), error := none }])
        (.vstr o)
        (trace ++ [(sidI, resolveSequentialInput (store sidI) prevOut)])
        f (by omega) hid (by omega)
      refine ⟨st', ?_, ?_⟩
      · simp only [executeSequentialLoop]
        rw [hgi]
        simp only
        rw [hstep]
        simp only
        rw [stepCalls_eq, hid]
        exact hrun
      · rw [htr]
        rw [List.drop_eq_getElem_cons hilen, hgetI]
        simp [List.append_assoc]

/-- C1: for a sequential workflow, a step whose invocations always fail (and
which is reached, i.e. all steps before it succeed) is invoked exactly
`1 + step.retries` times before the execution is reported failed (a failed
`ExecutionResult` carrying the step's error, returned from `execute`); the
retries are scoped to the failing step: the invocation log is exactly the
preceding steps once each, in declaration order, followed by
`1 + step.retries` invocations of the failing step — no other step is
re-run or reordered and no later step is ever invoked. -/
theorem sequential_always_failing_step_attempts
    (invoke : Invoker) (config : EngineConfig) (active : Nat) (wf : Workflow)
    (store : StepStore) (executionId : String) (elapsed fuel : Nat)
    (j : Nat) (sid e : String)
    (hpat : wf.pattern = "sequential")
    (hcap : active < config.maxConcurrent)
    (hid : ∀ x, (store x).id = x)
    (hj : wf.steps[j]? = some sid)
    (hfail : ∀ inp a, invoke sid inp a = .error e)
    (hok : ∀ i, i < j → ∀ sid', wf.steps[i]? = some sid' →
      ∀ inp a, ∃ o, invoke sid' inp a = .ok o)
    (hfuel : j + (store sid).retries + 1 ≤ fuel) :
    ∃ out, execute invoke config active wf store executionId elapsed fuel =
        .finished out ∧
      out.result.success = false ∧
      out.result.error = some e ∧
      out.trace.map Prod.fst =
        wf.steps.take j ++ List.replicate (1 + (store sid).retries) sid := by
  obtain ⟨st', hrun, htr⟩ := seqLoop_prefix_fail invoke wf.steps j sid e
    hj hfail hok j 0 store [] .vnull [] fuel (by omega) hid (by omega)
  have hseq : executeSequential invoke fuel wf store = .thrown e st' := hrun
  refine ⟨⟨⟨false, executionId, wf.id, none, some e, elapsed, none⟩,
    st'.trace, st'.steps, st'.store, active + 1 - 1⟩, ?_, rfl, rfl, ?_⟩
  · unfold execute
    rw [if_neg (Nat.not_le.mpr hcap)]
    simp only
    rw [hpat]
    rw [if_pos (rfl : ("sequential" : String) = "sequential")]
    rw [hseq]
  · rw [htr]
    simp [Nat.add_comm]

/-- Witness for C1: a two-step sequential workflow whose first step always
succeeds and whose second step (2 retries) always fails; the second step is
invoked `3 = 1 + 2` times. -/
theorem sequential_always_failing_step_attempts_witness :
    ∃ out, execute invokeC1 cfgW 0 wfC1 storeC1 "e1" 8 5 = .finished out ∧
      out.result.success = false ∧
      out.result.error = some "boom" ∧
      out.trace.map Prod.fst =
        wfC1.steps.take 1 ++
          List.replicate (1 + (storeC1 "b").retries) "b" :=
  sequential_always_failing_step_attempts invokeC1 cfgW 0 wfC1 storeC1
    "e1" 8 5 1 "b" "boom" rfl (by decide) (fun x => rfl) rfl
    (fun inp a => rfl)
    (by
      intro i hi sid' hgot inp a
      interval_cases i
      simp only [wfC1] at hgot
      simp at hgot
      subst hgot
      exact ⟨"va", rfl⟩)
    (by decide)

end AgentOrchestra
